import Mathlib

/-!
Shallow embedding of `eden/common/utils/FaultInjector.cpp`.

The fault injector keeps two mappings guarded by one lock:
`faults : key class -> ordered vector of Fault` and
`blockedChecks : key class -> ordered vector of BlockedCheck`.
We model the `folly::F14NodeMap` maps as association lists with unique
keys, `boost::regex` as an opaque full-string match function
`matchFn : pattern text -> value -> Bool` (the pattern-matching engine is
an external collaborator; a compiled regex is represented by its original
text, which `.str()` recovers in the source), `folly::exception_wrapper`
as the type `Err`, and promises by numeric identifiers allocated from a
counter; an operation that fulfills promises returns the list of
`(promise id, resolution)` pairs it performed.
-/

set_option autoImplicit false
set_option linter.unusedVariables false

/-- A `folly::exception_wrapper` payload. Errors supplied by the host at
registration are `injected` payloads; the `std::runtime_error` the
destructor constructs is the distinguished value `faultInjectorDestroyed`,
a fresh object distinct from every host-supplied error. -/
inductive Err where
  | injected : String → Err
  | faultInjectorDestroyed : Err
deriving DecidableEq

/-- `FaultInjector::FaultBehavior`, the closed variant
`std::variant<Unit, Block, Delay, exception_wrapper, Kill>`.
A `Delay` stores its duration in milliseconds and an optional error. -/
inductive FaultBehavior where
  | unit : FaultBehavior
  | block : FaultBehavior
  | delay : Nat → Option Err → FaultBehavior
  | error : Err → FaultBehavior
  | kill : FaultBehavior
deriving DecidableEq

/-- `FaultInjector::Fault`: the compiled pattern (kept as its text), the
remaining trigger count (`0` = unlimited) and the behavior. -/
structure Fault where
  keyValueRegex : String
  countRemaining : Nat
  behavior : FaultBehavior
deriving DecidableEq

/-- `FaultInjector::BlockedCheck`: the key value that blocked and the
promise the suspended caller waits on, as an identifier. -/
structure BlockedCheck where
  keyValue : String
  promise : Nat
deriving DecidableEq

/-- `FaultInjector::State`: the two mappings, plus the counter we use to
hand out fresh promise identifiers. -/
structure State where
  faults : List (String × List Fault)
  blockedChecks : List (String × List BlockedCheck)
  nextPromise : Nat
deriving DecidableEq

/-- The injector object: the construction-time `enabled_` flag and the
locked `state_`. -/
structure FaultInjector where
  enabled : Bool
  state : State
deriving DecidableEq

/-- `map.find(k)` on an association list: first entry with the key. -/
def findClass {α : Type} (m : List (String × α)) (k : String) : Option α :=
  match m with
  | [] => none
  | (c, v) :: rest => if c = k then some v else findClass rest k

/-- `map[k] = v`: replace the first entry with key `k`, or append a new
entry when the key is absent. -/
def setClass {α : Type} (m : List (String × α)) (k : String) (v : α) :
    List (String × α) :=
  match m with
  | [] => [(k, v)]
  | (c, w) :: rest => if c = k then (c, v) :: rest else (c, w) :: setClass rest k v

/-- `map.erase(iter)` at the entry found for key `k`: drop the first entry
with that key. -/
def eraseClass {α : Type} (m : List (String × α)) (k : String) :
    List (String × α) :=
  match m with
  | [] => []
  | (c, v) :: rest => if c = k then rest else (c, v) :: eraseClass rest k

/-- The map keys are pairwise distinct — automatic for `F14NodeMap`,
an explicit invariant for the association lists modelling it. -/
def keysUnique {α : Type} (m : List (String × α)) : Prop :=
  (m.map Prod.fst).Nodup

/-- The scan loop of `FaultInjector::findFault` over one class's fault
vector: find the first fault whose pattern matches `value`; on a match
snapshot the behavior, and when the count is positive decrement it,
erasing the fault when the decrement reaches zero. Returns the behavior
(`unit` when nothing matches) and the updated vector. -/
def findFaultInList (matchFn : String → String → Bool) (value : String) :
    List Fault → FaultBehavior × List Fault
  | [] => (.unit, [])
  | f :: rest =>
    if matchFn f.keyValueRegex value then
      if f.countRemaining > 0 then
        if f.countRemaining - 1 = 0 then
          (f.behavior, rest)
        else
          (f.behavior, { f with countRemaining := f.countRemaining - 1 } :: rest)
      else
        (f.behavior, f :: rest)
    else
      let r := findFaultInList matchFn value rest
      (r.1, f :: r.2)

/-- `FaultInjector::findFault(keyClass, keyValue)`: under the lock, look
the class up (no entry: `unit`), scan its vector, and write the possibly
mutated vector back. The source does not prune the class entry here even
when the erase empties the vector. -/
def findFault (matchFn : String → String → Bool) (s : State)
    (keyClass keyValue : String) : FaultBehavior × State :=
  match findClass s.faults keyClass with
  | none => (.unit, s)
  | some faultVector =>
    let r := findFaultInList matchFn keyValue faultVector
    (r.1, { s with faults := setClass s.faults keyClass r.2 })

/-- `FaultInjector::injectFault`: refused with the "disabled" error when
the injector was constructed disabled, otherwise append the new fault to
the end of the class's vector (creating the entry when absent). -/
def injectFault (inj : FaultInjector) (keyClass keyValueRegex : String)
    (behavior : FaultBehavior) (count : Nat) : Except String FaultInjector :=
  if !inj.enabled then
    .error "fault injection is disabled"
  else
    let old := (findClass inj.state.faults keyClass).getD []
    let faults' := setClass inj.state.faults keyClass (old ++ [⟨keyValueRegex, count, behavior⟩])
    .ok { inj with state := { inj.state with faults := faults' } }

/-- `FaultInjector::injectError`. -/
def injectError (inj : FaultInjector) (keyClass keyValueRegex : String)
    (error : Err) (count : Nat) : Except String FaultInjector :=
  injectFault inj keyClass keyValueRegex (.error error) count

/-- `FaultInjector::injectBlock`. -/
def injectBlock (inj : FaultInjector) (keyClass keyValueRegex : String)
    (count : Nat) : Except String FaultInjector :=
  injectFault inj keyClass keyValueRegex .block count

/-- `FaultInjector::injectDelay`. -/
def injectDelay (inj : FaultInjector) (keyClass keyValueRegex : String)
    (duration : Nat) (count : Nat) : Except String FaultInjector :=
  injectFault inj keyClass keyValueRegex (.delay duration none) count

/-- `FaultInjector::injectDelayedError`. -/
def injectDelayedError (inj : FaultInjector) (keyClass keyValueRegex : String)
    (duration : Nat) (error : Err) (count : Nat) : Except String FaultInjector :=
  injectFault inj keyClass keyValueRegex (.delay duration (some error)) count

/-- `FaultInjector::injectKill`. -/
def injectKill (inj : FaultInjector) (keyClass keyValueRegex : String)
    (count : Nat) : Except String FaultInjector :=
  injectFault inj keyClass keyValueRegex .kill count

/-- `FaultInjector::injectNoop`: registers `folly::unit` as the behavior. -/
def injectNoop (inj : FaultInjector) (keyClass keyValueRegex : String)
    (count : Nat) : Except String FaultInjector :=
  injectFault inj keyClass keyValueRegex .unit count

/-- The scan loop of `FaultInjector::removeFault`: erase the first fault
whose original pattern text equals `keyValueRegex` (string equality, not a
match); `none` when no fault's text equals it. -/
def removeFromVector (keyValueRegex : String) :
    List Fault → Option (List Fault)
  | [] => none
  | f :: rest =>
    if f.keyValueRegex = keyValueRegex then
      some rest
    else
      (removeFromVector keyValueRegex rest).map (f :: ·)

/-- `FaultInjector::removeFault(keyClass, keyValueRegex)`: `false` when
the class has no entry or no fault's pattern text equals the argument;
otherwise erase that fault, prune the class entry when the vector became
empty, and return `true`. -/
def removeFault (inj : FaultInjector) (keyClass keyValueRegex : String) :
    Bool × FaultInjector :=
  match findClass inj.state.faults keyClass with
  | none => (false, inj)
  | some faultVector =>
    match removeFromVector keyValueRegex faultVector with
    | none => (false, inj)
    | some faultVector' =>
      if faultVector'.isEmpty then
        let faults' := eraseClass inj.state.faults keyClass
        (true, { inj with state := { inj.state with faults := faults' } })
      else
        let faults' := setClass inj.state.faults keyClass faultVector'
        (true, { inj with state := { inj.state with faults := faults' } })

/-- The observable shape of the `ImmediateFuture<Unit>` that
`checkAsyncImpl` returns: already completed with success, already failed,
sleeping for a duration (then success or the stored error), pending on a
blocked-check promise, or the process aborted (`Kill`). -/
inductive CheckResult where
  | completed : CheckResult
  | failed : Err → CheckResult
  | delayed : Nat → Option Err → CheckResult
  | blocked : Nat → CheckResult
  | aborted : CheckResult
deriving DecidableEq

/-- Whether the returned future is resolved the moment `checkAsyncImpl`
returns it. -/
def CheckResult.isImmediatelyResolved : CheckResult → Bool
  | .completed => true
  | .failed _ => true
  | _ => false

/-- `FaultInjector::addBlockedFault`: make a promise/future contract,
append `{keyValue, promise}` to the class's blocked vector, and hand the
future (here: the promise identifier) back. -/
def addBlockedFault (s : State) (keyClass keyValue : String) : Nat × State :=
  let promise := s.nextPromise
  let old := (findClass s.blockedChecks keyClass).getD []
  let blocked' := setClass s.blockedChecks keyClass (old ++ [⟨keyValue, promise⟩])
  (promise, { s with blockedChecks := blocked', nextPromise := s.nextPromise + 1 })

/-- `FaultInjector::checkAsyncImpl`: ask `findFault` for the behavior and
dispatch on it — `unit` completes immediately, `block` registers a blocked
check and returns its pending future, `delay` sleeps, an error fails the
future immediately, `kill` aborts. -/
def checkAsyncImpl (matchFn : String → String → Bool) (inj : FaultInjector)
    (keyClass keyValue : String) : CheckResult × FaultInjector :=
  match findFault matchFn inj.state keyClass keyValue with
  | (.unit, st) => (.completed, { inj with state := st })
  | (.block, st) =>
    let pb := addBlockedFault st keyClass keyValue
    (.blocked pb.1, { inj with state := pb.2 })
  | (.delay d e, st) => (.delayed d e, { inj with state := st })
  | (.error e, st) => (.failed e, { inj with state := st })
  | (.kill, st) => (.aborted, { inj with state := st })

/-- `.getTry()` on the future `checkAsyncImpl` returned: the value the
blocking wait yields, or `none` when the wait never finishes on its own
(a still-pending block, or the aborted process). A sleeping `delay`
future finishes once the duration elapses. -/
def tryOfResult : CheckResult → Option (Except Err Unit)
  | .completed => some (.ok ())
  | .failed e => some (.error e)
  | .delayed _ none => some (.ok ())
  | .delayed _ (some e) => some (.error e)
  | .blocked _ => none
  | .aborted => none

/-- `FaultInjector::checkTryImpl`: `checkAsyncImpl(...).getTry()`. -/
def checkTryImpl (matchFn : String → String → Bool) (inj : FaultInjector)
    (keyClass keyValue : String) : Option (Except Err Unit) × FaultInjector :=
  let r := checkAsyncImpl matchFn inj keyClass keyValue
  (tryOfResult r.1, r.2)

/-- `FaultInjector::checkImpl`: like `checkTryImpl`, but a failure is
re-thrown at the caller (the `Except.error` arm is the thrown exception). -/
def checkImpl (matchFn : String → String → Bool) (inj : FaultInjector)
    (keyClass keyValue : String) : Option (Except Err Unit) × FaultInjector :=
  checkTryImpl matchFn inj keyClass keyValue

/-- How a promise gets fulfilled: `setValue()` or `setException(e)`. -/
inductive Resolution where
  | success : Resolution
  | failure : Err → Resolution
deriving DecidableEq

/-- `FaultInjector::extractBlockedChecks`: partition the class's blocked
vector — entries whose value fully matches the compiled pattern move, in
order, into the result list; the rest are compacted forward in order.
When everything was extracted the class entry is erased, otherwise the
vector is truncated to the kept entries. -/
def extractBlockedChecks (matchFn : String → String → Bool)
    (inj : FaultInjector) (keyClass keyValueRegex : String) :
    List BlockedCheck × FaultInjector :=
  match findClass inj.state.blockedChecks keyClass with
  | none => ([], inj)
  | some blockedChecks =>
    let part := blockedChecks.partition (fun c => matchFn keyValueRegex c.keyValue)
    if part.2.isEmpty then
      let blocked' := eraseClass inj.state.blockedChecks keyClass
      (part.1, { inj with state := { inj.state with blockedChecks := blocked' } })
    else
      let blocked' := setClass inj.state.blockedChecks keyClass part.2
      (part.1, { inj with state := { inj.state with blockedChecks := blocked' } })

/-- `FaultInjector::unblock`: extract the matching blocked checks and
fulfill each one's promise with success; returns how many. -/
def unblock (matchFn : String → String → Bool) (inj : FaultInjector)
    (keyClass keyValueRegex : String) :
    Nat × List (Nat × Resolution) × FaultInjector :=
  let r := extractBlockedChecks matchFn inj keyClass keyValueRegex
  (r.1.length, r.1.map (fun m => (m.promise, Resolution.success)), r.2)

/-- `FaultInjector::unblockWithError`: extract the matching blocked
checks and fulfill each one's promise with `error`; returns how many. -/
def unblockWithError (matchFn : String → String → Bool) (inj : FaultInjector)
    (keyClass keyValueRegex : String) (error : Err) :
    Nat × List (Nat × Resolution) × FaultInjector :=
  let r := extractBlockedChecks matchFn inj keyClass keyValueRegex
  (r.1.length, r.1.map (fun m => (m.promise, Resolution.failure error)), r.2)

/-- The resolution loop of `FaultInjector::unblockAllImpl`: for every
class entry of the swapped-out mapping, fulfill every check's promise
(with `error` when given, success otherwise) and add the class's size to
the running count. -/
def resolveAll (error : Option Err) :
    List (String × List BlockedCheck) → Nat × List (Nat × Resolution)
  | [] => (0, [])
  | (_, checks) :: rest =>
    let r := resolveAll error rest
    let res := checks.map (fun ch =>
      (ch.promise, match error with
        | some e => Resolution.failure e
        | none => Resolution.success))
    (checks.length + r.1, res ++ r.2)

/-- `FaultInjector::unblockAllImpl`: swap the whole blocked-check mapping
out (leaving it empty), then resolve every extracted promise outside the
lock; returns the total resolved. -/
def unblockAllImpl (inj : FaultInjector) (error : Option Err) :
    Nat × List (Nat × Resolution) × FaultInjector :=
  let blockedChecks := inj.state.blockedChecks
  let inj' : FaultInjector := { inj with state := { inj.state with blockedChecks := [] } }
  let r := resolveAll error blockedChecks
  (r.1, r.2, inj')

/-- `FaultInjector::unblockAll`. -/
def unblockAll (inj : FaultInjector) : Nat × List (Nat × Resolution) × FaultInjector :=
  unblockAllImpl inj none

/-- `FaultInjector::unblockAllWithError`. -/
def unblockAllWithError (inj : FaultInjector) (error : Err) :
    Nat × List (Nat × Resolution) × FaultInjector :=
  unblockAllImpl inj (some error)

/-- `FaultInjector::~FaultInjector`: fail every still-pending blocked
check with the synthetic destruction error, and log a warning exactly
when the number of forced releases is positive. Returns that number, the
resolutions performed, and whether the warning was logged. -/
def destructor (inj : FaultInjector) : Nat × List (Nat × Resolution) × Bool :=
  let r := unblockAllImpl inj (some .faultInjectorDestroyed)
  (r.1, r.2.1, decide (0 < r.1))

/-- `FaultInjector::getBlockedFaults`: the key values currently blocked
in the class, in order. -/
def getBlockedFaults (inj : FaultInjector) (keyClass : String) : List String :=
  match findClass inj.state.blockedChecks keyClass with
  | none => []
  | some l => l.map (·.keyValue)

/-- Iterated matching: the behaviors the first `n` successive
`findFault` calls with the same key class and key value return, together
with the state left behind. -/
def iterFindFault (matchFn : String → String → Bool) (s : State)
    (keyClass keyValue : String) : Nat → List FaultBehavior × State
  | 0 => ([], s)
  | n + 1 =>
    let r := findFault matchFn s keyClass keyValue
    let rest := iterFindFault matchFn r.2 keyClass keyValue n
    (r.1 :: rest.1, rest.2)

/-- Follows the spec's words (§4.2), for comparison with `findFault`:
"if the class has no entry, returns `NoOp`. Otherwise scans the list
front-to-back; for each Fault, performs a full-string match of `value`
against the Fault's pattern; the first match is the result. ... If no
Fault matches, returns `NoOp`." -/
def findFaultSpecModel (matchFn : String → String → Bool) (s : State)
    (keyClass keyValue : String) : FaultBehavior :=
  match findClass s.faults keyClass with
  | none => .unit
  | some l =>
    match l.find? (fun f => matchFn f.keyValueRegex keyValue) with
    | none => .unit
    | some f => f.behavior

/-! ### Association-list map lemmas -/

theorem findClass_eq_none_of_not_mem {α : Type} {m : List (String × α)} {k : String}
    (h : k ∉ m.map Prod.fst) : findClass m k = none := by
  induction m with
  | nil => rfl
  | cons e rest ih =>
    obtain ⟨c, w⟩ := e
    simp only [List.map_cons, List.mem_cons] at h
    push_neg at h
    simp [findClass, Ne.symm h.1, ih h.2]

theorem findClass_setClass_self {α : Type} (m : List (String × α)) (k : String) (v : α) :
    findClass (setClass m k v) k = some v := by
  induction m with
  | nil => simp [setClass, findClass]
  | cons e rest ih =>
    obtain ⟨c, w⟩ := e
    by_cases h : c = k <;> simp [setClass, findClass, h, ih]

theorem findClass_setClass_other {α : Type} (m : List (String × α)) (k k' : String) (v : α)
    (h : k' ≠ k) : findClass (setClass m k v) k' = findClass m k' := by
  induction m with
  | nil => simp [setClass, findClass, Ne.symm h]
  | cons e rest ih =>
    obtain ⟨c, w⟩ := e
    by_cases hc : c = k
    · subst hc
      simp [setClass, findClass, Ne.symm h]
    · simp only [setClass, if_neg hc]
      by_cases hc' : c = k' <;> simp [findClass, hc', ih]

theorem findClass_eraseClass_self {α : Type} (m : List (String × α)) (k : String)
    (hu : keysUnique m) : findClass (eraseClass m k) k = none := by
  induction m with
  | nil => rfl
  | cons e rest ih =>
    obtain ⟨c, w⟩ := e
    simp only [keysUnique, List.map_cons, List.nodup_cons] at hu
    by_cases h : c = k
    · subst h
      simp only [eraseClass, if_pos rfl]
      exact findClass_eq_none_of_not_mem hu.1
    · simp [eraseClass, findClass, h, ih hu.2]

theorem findClass_eraseClass_other {α : Type} (m : List (String × α)) (k k' : String)
    (h : k' ≠ k) : findClass (eraseClass m k) k' = findClass m k' := by
  induction m with
  | nil => rfl
  | cons e rest ih =>
    obtain ⟨c, w⟩ := e
    by_cases hc : c = k
    · subst hc
      simp [eraseClass, findClass, Ne.symm h]
    · by_cases hc' : c = k' <;> simp [eraseClass, findClass, hc, hc', ih, h]

theorem mem_setClass {α : Type} {m : List (String × α)} {k : String} {v : α}
    {e : String × α} (h : e ∈ setClass m k v) : e ∈ m ∨ e = (k, v) := by
  induction m with
  | nil =>
    simp only [setClass, List.mem_singleton] at h
    exact Or.inr h
  | cons p rest ih =>
    obtain ⟨c, w⟩ := p
    by_cases hc : c = k
    · subst hc
      simp only [setClass, if_true, eq_self_iff_true, List.mem_cons] at h
      rcases h with h1 | h1
      · exact Or.inr h1
      · exact Or.inl (List.mem_cons_of_mem _ h1)
    · simp only [setClass, if_neg hc, List.mem_cons] at h
      rcases h with h1 | h1
      · exact Or.inl (by simp [h1])
      · rcases ih h1 with h2 | h2
        · exact Or.inl (List.mem_cons_of_mem _ h2)
        · exact Or.inr h2

theorem mem_eraseClass {α : Type} {m : List (String × α)} {k : String}
    {e : String × α} (h : e ∈ eraseClass m k) : e ∈ m := by
  induction m with
  | nil => simp [eraseClass] at h
  | cons p rest ih =>
    obtain ⟨c, w⟩ := p
    by_cases hc : c = k
    · simp only [eraseClass, if_pos hc] at h
      exact List.mem_cons_of_mem _ h
    · simp only [eraseClass, if_neg hc, List.mem_cons] at h
      rcases h with h | h
      · exact h ▸ List.mem_cons_self _ _
      · exact List.mem_cons_of_mem _ (ih h)

/-! ### `findFaultInList` characterizations -/

theorem findFaultInList_fst (matchFn : String → String → Bool) (v : String)
    (l : List Fault) :
    (findFaultInList matchFn v l).1 =
      ((l.find? fun f => matchFn f.keyValueRegex v).map Fault.behavior).getD .unit := by
  induction l with
  | nil => rfl
  | cons f rest ih =>
    by_cases h : matchFn f.keyValueRegex v = true
    · rw [List.find?_cons_of_pos (p := fun g : Fault => matchFn g.keyValueRegex v) _ h]
      simp only [findFaultInList, if_pos h, Option.map_some', Option.getD_some]
      split_ifs <;> rfl
    · rw [List.find?_cons_of_neg (p := fun g : Fault => matchFn g.keyValueRegex v) _ h]
      simp only [findFaultInList, if_neg h]
      exact ih

theorem findFaultInList_no_match (matchFn : String → String → Bool) (v : String)
    (l : List Fault) (h : ∀ g ∈ l, matchFn g.keyValueRegex v = false) :
    findFaultInList matchFn v l = (.unit, l) := by
  induction l with
  | nil => rfl
  | cons f rest ih =>
    have hf := h f (List.mem_cons_self _ _)
    have hrest : ∀ g ∈ rest, matchFn g.keyValueRegex v = false :=
      fun g hg => h g (List.mem_cons_of_mem _ hg)
    simp [findFaultInList, hf, ih hrest]

theorem find?_append_first {α : Type} (p : α → Bool) (a b : List α) (f : α)
    (ha : ∀ g ∈ a, p g = false) (hf : p f = true) :
    (a ++ f :: b).find? p = some f := by
  induction a with
  | nil => simpa using List.find?_cons_of_pos _ hf
  | cons g a' ih =>
    have hg : ¬p g = true := by simp [ha g (List.mem_cons_self _ _)]
    simp only [List.cons_append]
    rw [List.find?_cons_of_neg _ hg]
    exact ih fun x hx => ha x (List.mem_cons_of_mem _ hx)

theorem injectFault_appends (inj : FaultInjector) (keyClass pat : String)
    (behavior : FaultBehavior) (count : Nat) (inj' : FaultInjector)
    (h : injectFault inj keyClass pat behavior count = .ok inj') :
    findClass inj'.state.faults keyClass =
      some ((findClass inj.state.faults keyClass).getD [] ++ [⟨pat, count, behavior⟩]) := by
  cases he : inj.enabled with
  | true =>
    simp only [injectFault, he, Bool.not_true, Bool.false_eq_true, if_false,
      Except.ok.injEq] at h
    subst h
    exact findClass_setClass_self _ _ _
  | false => simp [injectFault, he] at h

/-- A stand-in for the collaborating pattern-matching engine in concrete
witnesses: `.*` matches everything, `^/foo$` matches exactly `/foo`, and
any other pattern matches exactly its own text. -/
def regexStub (p v : String) : Bool :=
  if p = ".*" then true
  else if p = "^/foo$" then v == "/foo"
  else p == v

/-- C2: `findFault` returns `NoOp` when the rule store has no entry for
the class; otherwise it scans the class's vector front-to-back with a
full-string match of the value against each pattern and returns the
behavior of the first fault that matches, `NoOp` when none matches —
and since registration appends at the back of the vector, among several
matching faults of one class the earliest-registered one's behavior is
the one applied. -/
theorem c2_first_match_wins (matchFn : String → String → Bool) (s : State)
    (keyClass keyValue : String) :
    (findClass s.faults keyClass = none → (findFault matchFn s keyClass keyValue).1 = .unit)
    ∧ (findFault matchFn s keyClass keyValue).1 = findFaultSpecModel matchFn s keyClass keyValue
    ∧ (∀ a f b, findClass s.faults keyClass = some (a ++ f :: b) →
        (∀ g ∈ a, matchFn g.keyValueRegex keyValue = false) →
        matchFn f.keyValueRegex keyValue = true →
        (findFault matchFn s keyClass keyValue).1 = f.behavior)
    ∧ (∀ l, findClass s.faults keyClass = some l →
        (∀ g ∈ l, matchFn g.keyValueRegex keyValue = false) →
        (findFault matchFn s keyClass keyValue).1 = .unit)
    ∧ (∀ pat behavior count inj inj',
        injectFault inj keyClass pat behavior count = .ok inj' →
        findClass inj'.state.faults keyClass =
          some ((findClass inj.state.faults keyClass).getD [] ++ [⟨pat, count, behavior⟩])) := by
  refine ⟨fun h => by simp [findFault, h], ?_, ?_, ?_, ?_⟩
  · cases hc : findClass s.faults keyClass with
    | none => simp [findFault, findFaultSpecModel, hc]
    | some l =>
      simp only [findFault, findFaultSpecModel, hc]
      rw [findFaultInList_fst]
      cases hf : l.find? fun f => matchFn f.keyValueRegex keyValue <;> simp [hf]
  · intro a f b hc ha hf
    simp only [findFault, hc]
    rw [findFaultInList_fst, find?_append_first _ _ _ _ ha hf]
    rfl
  · intro l hc hl
    simp only [findFault, hc]
    rw [findFaultInList_fst]
    have : l.find? (fun f => matchFn f.keyValueRegex keyValue) = none := by
      rw [List.find?_eq_none]
      intro g hg
      simp [hl g hg]
    simp [this]
  · exact fun pat behavior count inj inj' h => injectFault_appends inj keyClass pat behavior count inj' h

/-- Witness for C2 at a concrete rule store: three faults registered for
class `"open"`; the value `"/foo"` is matched by the second and third,
and the earliest of those (the `Error` fault) wins. -/
theorem c2_first_match_wins_witness :
    (findFault regexStub
      ⟨[("open", [⟨"a", 0, .unit⟩, ⟨"^/foo$", 0, .error (.injected "boom")⟩, ⟨".*", 0, .block⟩])],
        [], 0⟩ "open" "/foo").1 = .error (.injected "boom") := by
  have h := (c2_first_match_wins regexStub
    ⟨[("open", [⟨"a", 0, .unit⟩, ⟨"^/foo$", 0, .error (.injected "boom")⟩, ⟨".*", 0, .block⟩])],
      [], 0⟩ "open" "/foo").2.2.1
  exact h [⟨"a", 0, .unit⟩] ⟨"^/foo$", 0, .error (.injected "boom")⟩ [⟨".*", 0, .block⟩]
    (by decide) (by decide) (by decide)

/-! ### Iterated `findFault` on a single-fault class -/

theorem iterFindFault_empty_vector (matchFn : String → String → Bool)
    (keyClass keyValue : String) (bl : List (String × List BlockedCheck)) (np : Nat) :
    ∀ n, iterFindFault matchFn ⟨[(keyClass, [])], bl, np⟩ keyClass keyValue n
      = (List.replicate n .unit, ⟨[(keyClass, [])], bl, np⟩) := by
  intro n
  induction n with
  | zero => rfl
  | succ n ih =>
    have hstep : findFault matchFn ⟨[(keyClass, ([] : List Fault))], bl, np⟩ keyClass keyValue
        = (.unit, ⟨[(keyClass, [])], bl, np⟩) := by
      simp [findFault, findClass, findFaultInList, setClass]
    simp [iterFindFault, hstep, ih, List.replicate_succ]

theorem iterFindFault_single_unlimited (matchFn : String → String → Bool)
    (keyClass pat keyValue : String) (b : FaultBehavior)
    (bl : List (String × List BlockedCheck)) (np : Nat)
    (hm : matchFn pat keyValue = true) :
    ∀ n, iterFindFault matchFn ⟨[(keyClass, [⟨pat, 0, b⟩])], bl, np⟩ keyClass keyValue n
      = (List.replicate n b, ⟨[(keyClass, [⟨pat, 0, b⟩])], bl, np⟩) := by
  intro n
  induction n with
  | zero => rfl
  | succ n ih =>
    have hstep : findFault matchFn ⟨[(keyClass, [⟨pat, 0, b⟩])], bl, np⟩ keyClass keyValue
        = (b, ⟨[(keyClass, [⟨pat, 0, b⟩])], bl, np⟩) := by
      simp [findFault, findClass, findFaultInList, setClass, hm]
    simp [iterFindFault, hstep, ih, List.replicate_succ]

theorem iterFindFault_single_bounded (matchFn : String → String → Bool)
    (keyClass pat keyValue : String) (b : FaultBehavior)
    (bl : List (String × List BlockedCheck)) (np : Nat)
    (hm : matchFn pat keyValue = true) :
    ∀ n N, 0 < N →
      iterFindFault matchFn ⟨[(keyClass, [⟨pat, N, b⟩])], bl, np⟩ keyClass keyValue n
        = (List.replicate (min n N) b ++ List.replicate (n - N) .unit,
           if n < N then ⟨[(keyClass, [⟨pat, N - n, b⟩])], bl, np⟩
           else ⟨[(keyClass, [])], bl, np⟩) := by
  intro n
  induction n with
  | zero =>
    intro N hN
    simp [iterFindFault, hN]
  | succ n ih =>
    intro N hN
    rcases Nat.lt_or_ge N 2 with h2 | h2
    · have h1 : N = 1 := by omega
      subst h1
      have hstep : findFault matchFn ⟨[(keyClass, [⟨pat, 1, b⟩])], bl, np⟩ keyClass keyValue
          = (b, ⟨[(keyClass, [])], bl, np⟩) := by
        simp [findFault, findClass, findFaultInList, setClass, hm]
      have hmin : min (n + 1) 1 = 1 := by omega
      have hsub : n + 1 - 1 = n := by omega
      have hlt : ¬(n + 1 < 1) := by omega
      simp [iterFindFault, hstep, iterFindFault_empty_vector, hmin, hsub, hlt,
        List.replicate_succ]
    · have hstep : findFault matchFn ⟨[(keyClass, [⟨pat, N, b⟩])], bl, np⟩ keyClass keyValue
          = (b, ⟨[(keyClass, [⟨pat, N - 1, b⟩])], bl, np⟩) := by
        have ha : N > 0 := by omega
        have hb : ¬(N - 1 = 0) := by omega
        simp [findFault, findClass, findFaultInList, setClass, hm, ha, hb]
      have ihn := ih (N - 1) (by omega)
      have hmin : min (n + 1) N = min n (N - 1) + 1 := by omega
      have hsub : n + 1 - N = n - (N - 1) := by omega
      have hsub2 : N - 1 - n = N - (n + 1) := by omega
      by_cases hlt : n + 1 < N
      · have hlt' : n < N - 1 := by omega
        simp [iterFindFault, hstep, ihn, hmin, hsub, hsub2, hlt, hlt',
          List.replicate_succ]
      · have hlt' : ¬(n < N - 1) := by omega
        simp [iterFindFault, hstep, ihn, hmin, hsub, hlt, hlt',
          List.replicate_succ]

/-- C1: on a class holding one fault with pattern `pat`, non-`NoOp`
behavior `b` and count `N > 0`, the first `N` matching `findFault` calls
return `b` and every later one returns `NoOp`; after `n < N` matching
calls the fault is still registered with counter `N - n` (one decrement
per match), and from the `N`-th call on it has been erased from the
class's fault vector; a fault with count `0` returns `b` on every
matching call without ever being decremented or removed; a call whose
value does not match leaves the fault untouched; and concretely,
registering an `Error` fault for class `"open"`, pattern `"^/foo$"`,
count `1` makes the first `check("open","/foo")` throw the injected
error and the second one succeed. -/
theorem c1_bounded_fault_consumption (matchFn : String → String → Bool)
    (keyClass pat keyValue : String) (b : FaultBehavior) (N : Nat)
    (hN : 0 < N) (hm : matchFn pat keyValue = true) (hb : b ≠ .unit) :
    (∀ n, (iterFindFault matchFn ⟨[(keyClass, [⟨pat, N, b⟩])], [], 0⟩ keyClass keyValue n).1
        = List.replicate (min n N) b ++ List.replicate (n - N) .unit)
    ∧ (∀ n, n < N →
        (iterFindFault matchFn ⟨[(keyClass, [⟨pat, N, b⟩])], [], 0⟩ keyClass keyValue n).2
          = ⟨[(keyClass, [⟨pat, N - n, b⟩])], [], 0⟩)
    ∧ (∀ n, N ≤ n →
        (iterFindFault matchFn ⟨[(keyClass, [⟨pat, N, b⟩])], [], 0⟩ keyClass keyValue n).2
          = ⟨[(keyClass, [])], [], 0⟩)
    ∧ (∀ n, iterFindFault matchFn ⟨[(keyClass, [⟨pat, 0, b⟩])], [], 0⟩ keyClass keyValue n
        = (List.replicate n b, ⟨[(keyClass, [⟨pat, 0, b⟩])], [], 0⟩))
    ∧ (∀ v', matchFn pat v' = false →
        findFault matchFn ⟨[(keyClass, [⟨pat, N, b⟩])], [], 0⟩ keyClass v'
          = (.unit, ⟨[(keyClass, [⟨pat, N, b⟩])], [], 0⟩))
    ∧ (∀ e inj1, injectError ⟨true, ⟨[], [], 0⟩⟩ "open" "^/foo$" e 1 = .ok inj1 →
        matchFn "^/foo$" "/foo" = true →
        (checkImpl matchFn inj1 "open" "/foo").1 = some (.error e)
        ∧ (checkImpl matchFn (checkImpl matchFn inj1 "open" "/foo").2 "open" "/foo").1
            = some (.ok ())) := by
  refine ⟨?_, ?_, ?_, ?_, ?_, ?_⟩
  · intro n
    rw [iterFindFault_single_bounded matchFn keyClass pat keyValue b [] 0 hm n N hN]
  · intro n hn
    rw [iterFindFault_single_bounded matchFn keyClass pat keyValue b [] 0 hm n N hN]
    simp [hn]
  · intro n hn
    rw [iterFindFault_single_bounded matchFn keyClass pat keyValue b [] 0 hm n N hN]
    simp [Nat.not_lt.mpr hn]
  · exact iterFindFault_single_unlimited matchFn keyClass pat keyValue b [] 0 hm
  · intro v' hv
    simp [findFault, findClass, findFaultInList, setClass, hv]
  · intro e inj1 h hm2
    have h1 : inj1 = ⟨true, ⟨[("open", [⟨"^/foo$", 1, .error e⟩])], [], 0⟩⟩ := by
      have heval : injectError ⟨true, ⟨[], [], 0⟩⟩ "open" "^/foo$" e 1
          = .ok ⟨true, ⟨[("open", [⟨"^/foo$", 1, .error e⟩])], [], 0⟩⟩ := rfl
      rw [heval] at h
      exact (Except.ok.inj h).symm
    subst h1
    have hff : findFault matchFn ⟨[("open", [⟨"^/foo$", 1, .error e⟩])], [], 0⟩ "open" "/foo"
        = (.error e, ⟨[("open", [])], [], 0⟩) := by
      simp [findFault, findClass, findFaultInList, setClass, hm2]
    have hff2 : findFault matchFn ⟨[("open", ([] : List Fault))], [], 0⟩ "open" "/foo"
        = (.unit, ⟨[("open", [])], [], 0⟩) := by
      simp [findFault, findClass, findFaultInList, setClass]
    constructor
    · simp [checkImpl, checkTryImpl, checkAsyncImpl, hff, tryOfResult]
    · simp [checkImpl, checkTryImpl, checkAsyncImpl, hff, hff2, tryOfResult]

/-- Witness for C1: an `Error` fault with count `1` for class `"open"`
and pattern `"^/foo$"` yields the error on the first matching call and
`NoOp` on the second, and the two-`check` scenario behaves as claimed. -/
theorem c1_bounded_fault_consumption_witness :
    (iterFindFault regexStub ⟨[("open", [⟨"^/foo$", 1, .error (.injected "boom")⟩])], [], 0⟩
        "open" "/foo" 2).1
      = [.error (.injected "boom"), .unit]
    ∧ (checkImpl regexStub ⟨true, ⟨[("open", [⟨"^/foo$", 1, .error (.injected "boom")⟩])], [], 0⟩⟩
        "open" "/foo").1 = some (.error (.injected "boom")) := by
  have h := c1_bounded_fault_consumption regexStub "open" "^/foo$" "/foo"
    (.error (.injected "boom")) 1 (by decide) (by decide) (by decide)
  constructor
  · have h1 := h.1 2
    simpa using h1
  · have h6 := h.2.2.2.2.2 (.injected "boom")
      ⟨true, ⟨[("open", [⟨"^/foo$", 1, .error (.injected "boom")⟩])], [], 0⟩⟩ rfl (by decide)
    exact h6.1

/-! ### Pruning of emptied class entries -/

/-- No class entry of the mapping holds an empty vector. -/
def noEmptyClasses {α : Type} (m : List (String × List α)) : Prop :=
  ∀ e ∈ m, e.2 ≠ []

theorem findFault_preserves_blocked (matchFn : String → String → Bool) (s : State)
    (keyClass keyValue : String) :
    (findFault matchFn s keyClass keyValue).2.blockedChecks = s.blockedChecks := by
  unfold findFault
  cases findClass s.faults keyClass <;> simp

theorem removeFault_noEmpty (inj : FaultInjector) (keyClass t : String)
    (h : noEmptyClasses inj.state.faults) :
    noEmptyClasses (removeFault inj keyClass t).2.state.faults := by
  cases hfc : findClass inj.state.faults keyClass with
  | none => simpa [removeFault, hfc] using h
  | some vec =>
    cases hrv : removeFromVector t vec with
    | none => simpa [removeFault, hfc, hrv] using h
    | some vec' =>
      by_cases he : vec'.isEmpty = true
      · simp only [removeFault, hfc, hrv, he, if_true]
        intro e hme
        exact h e (mem_eraseClass hme)
      · simp only [removeFault, hfc, hrv, he, if_false]
        intro e hme
        rcases mem_setClass hme with h1 | h1
        · exact h e h1
        · subst h1
          simpa [List.isEmpty_iff] using he

theorem extractBlockedChecks_noEmpty (matchFn : String → String → Bool)
    (inj : FaultInjector) (keyClass pat : String)
    (h : noEmptyClasses inj.state.blockedChecks) :
    noEmptyClasses (extractBlockedChecks matchFn inj keyClass pat).2.state.blockedChecks := by
  cases hfc : findClass inj.state.blockedChecks keyClass with
  | none => simpa [extractBlockedChecks, hfc] using h
  | some vec =>
    by_cases he : (vec.partition fun c => matchFn pat c.keyValue).2.isEmpty = true
    · simp only [extractBlockedChecks, hfc, he, if_true]
      intro e hme
      exact h e (mem_eraseClass hme)
    · simp only [extractBlockedChecks, hfc, he, if_false]
      intro e hme
      rcases mem_setClass hme with h1 | h1
      · exact h e h1
      · subst h1
        simpa [List.isEmpty_iff] using he

theorem injectFault_noEmpty (inj : FaultInjector) (keyClass pat : String)
    (behavior : FaultBehavior) (count : Nat) (inj' : FaultInjector)
    (hok : injectFault inj keyClass pat behavior count = .ok inj')
    (h : noEmptyClasses inj.state.faults) : noEmptyClasses inj'.state.faults := by
  cases hen : inj.enabled with
  | false => simp [injectFault, hen] at hok
  | true =>
    simp only [injectFault, hen, Bool.not_true, Bool.false_eq_true, if_false,
      Except.ok.injEq] at hok
    subst hok
    intro e hme
    rcases mem_setClass hme with h1 | h1
    · exact h e h1
    · subst h1
      simp

theorem addBlockedFault_noEmpty (s : State) (keyClass keyValue : String)
    (h : noEmptyClasses s.blockedChecks) :
    noEmptyClasses (addBlockedFault s keyClass keyValue).2.blockedChecks := by
  intro e hme
  rcases mem_setClass hme with h1 | h1
  · exact h e h1
  · subst h1
    simp

theorem checkAsyncImpl_noEmpty (matchFn : String → String → Bool)
    (inj : FaultInjector) (keyClass keyValue : String)
    (h : noEmptyClasses inj.state.blockedChecks) :
    noEmptyClasses (checkAsyncImpl matchFn inj keyClass keyValue).2.state.blockedChecks := by
  rcases hp : findFault matchFn inj.state keyClass keyValue with ⟨bh, st⟩
  have hbl : st.blockedChecks = inj.state.blockedChecks := by
    have h2 : (findFault matchFn inj.state keyClass keyValue).2 = st := by rw [hp]
    rw [← h2]
    exact findFault_preserves_blocked matchFn inj.state keyClass keyValue
  have h' : noEmptyClasses st.blockedChecks := hbl ▸ h
  cases bh with
  | unit => simpa [checkAsyncImpl, hp] using h'
  | block =>
    simp only [checkAsyncImpl, hp]
    exact addBlockedFault_noEmpty st keyClass keyValue h'
  | delay d e => simpa [checkAsyncImpl, hp] using h'
  | error e => simpa [checkAsyncImpl, hp] using h'
  | kill => simpa [checkAsyncImpl, hp] using h'

theorem findFault_not_pruned (matchFn : String → String → Bool)
    (keyClass pat keyValue : String) (b : FaultBehavior)
    (bl : List (String × List BlockedCheck)) (np : Nat)
    (hm : matchFn pat keyValue = true) :
    (findFault matchFn ⟨[(keyClass, [⟨pat, 1, b⟩])], bl, np⟩ keyClass keyValue).2.faults
      = [(keyClass, [])] := by
  simp [findFault, findClass, findFaultInList, setClass, hm]

/-- C3 counterexample: `findFault` does not prune an emptied class entry.
With one `Error` fault of count `1` registered for class `"open"`, the
matching call erases the fault but leaves the entry `("open", [])` in the
fault mapping, so the state after the call violates the claimed
no-empty-class-entry invariant. -/
theorem c3_empty_class_not_pruned_counterexample :
    (findFault regexStub ⟨[("open", [⟨"^/foo$", 1, .error (.injected "boom")⟩])], [], 0⟩
        "open" "/foo").2
      = ⟨[("open", [])], [], 0⟩
    ∧ ("open", ([] : List Fault)) ∈
        (findFault regexStub ⟨[("open", [⟨"^/foo$", 1, .error (.injected "boom")⟩])], [], 0⟩
          "open" "/foo").2.faults := by
  decide

/-- C3 amended: every operation except `findFault` maintains the
no-empty-class-entry invariant on the mapping it touches — `removeFault`
and `extractBlockedChecks` (hence `unblock`/`unblockWithError`) prune an
emptied class entry, registration and blocked-call registration append a
nonempty vector, and `unblockAllImpl` leaves the whole blocked mapping
empty — but `findFault` does not prune: when erasing an exhausted fault
empties its class's vector, the empty class entry stays in the fault
mapping. -/
theorem c3_pruning_amended :
    (∀ (matchFn : String → String → Bool) (keyClass pat keyValue : String)
        (b : FaultBehavior) (bl : List (String × List BlockedCheck)) (np : Nat),
      matchFn pat keyValue = true →
        (findFault matchFn ⟨[(keyClass, [⟨pat, 1, b⟩])], bl, np⟩ keyClass keyValue).2.faults
          = [(keyClass, [])])
    ∧ (∀ (inj : FaultInjector) (keyClass t : String), noEmptyClasses inj.state.faults →
        noEmptyClasses (removeFault inj keyClass t).2.state.faults)
    ∧ (∀ (matchFn : String → String → Bool) (inj : FaultInjector) (keyClass pat : String),
        noEmptyClasses inj.state.blockedChecks →
        noEmptyClasses (extractBlockedChecks matchFn inj keyClass pat).2.state.blockedChecks)
    ∧ (∀ (matchFn : String → String → Bool) (inj : FaultInjector) (keyClass pat : String),
        noEmptyClasses inj.state.blockedChecks →
        noEmptyClasses (unblock matchFn inj keyClass pat).2.2.state.blockedChecks)
    ∧ (∀ (matchFn : String → String → Bool) (inj : FaultInjector) (keyClass pat : String)
        (e : Err), noEmptyClasses inj.state.blockedChecks →
        noEmptyClasses (unblockWithError matchFn inj keyClass pat e).2.2.state.blockedChecks)
    ∧ (∀ (inj : FaultInjector) (keyClass pat : String) (b : FaultBehavior) (count : Nat)
        (inj' : FaultInjector), injectFault inj keyClass pat b count = .ok inj' →
        noEmptyClasses inj.state.faults → noEmptyClasses inj'.state.faults)
    ∧ (∀ (matchFn : String → String → Bool) (inj : FaultInjector) (keyClass keyValue : String),
        noEmptyClasses inj.state.blockedChecks →
        noEmptyClasses (checkAsyncImpl matchFn inj keyClass keyValue).2.state.blockedChecks)
    ∧ (∀ (s : State) (keyClass keyValue : String), noEmptyClasses s.blockedChecks →
        noEmptyClasses (addBlockedFault s keyClass keyValue).2.blockedChecks)
    ∧ (∀ (inj : FaultInjector) (e : Option Err),
        (unblockAllImpl inj e).2.2.state.blockedChecks = []) := by
  refine ⟨?_, removeFault_noEmpty, extractBlockedChecks_noEmpty, ?_, ?_,
    injectFault_noEmpty, checkAsyncImpl_noEmpty, addBlockedFault_noEmpty, ?_⟩
  · intro matchFn keyClass pat keyValue b bl np hm
    exact findFault_not_pruned matchFn keyClass pat keyValue b bl np hm
  · intro matchFn inj keyClass pat h
    exact extractBlockedChecks_noEmpty matchFn inj keyClass pat h
  · intro matchFn inj keyClass pat e h
    exact extractBlockedChecks_noEmpty matchFn inj keyClass pat h
  · intro inj e
    rfl

/-- Witness for the amended C3 at concrete inputs: the un-pruned empty
entry left by `findFault`, and `removeFault` pruning the entry it
empties. -/
theorem c3_pruning_amended_witness :
    (findFault regexStub ⟨[("x", [⟨"p", 1, .block⟩])], [], 0⟩ "x" "p").2.faults = [("x", [])]
    ∧ noEmptyClasses
        (removeFault ⟨true, ⟨[("c", [⟨"p", 0, .block⟩])], [], 0⟩⟩ "c" "p").2.state.faults := by
  constructor
  · exact c3_pruning_amended.1 regexStub "x" "p" "p" .block [] 0 (by decide)
  · exact c3_pruning_amended.2.1 ⟨true, ⟨[("c", [⟨"p", 0, .block⟩])], [], 0⟩⟩ "c" "p"
      (by intro e he; rw [List.mem_singleton] at he; subst he; simp)

theorem findFault_preserves_nextPromise (matchFn : String → String → Bool) (s : State)
    (keyClass keyValue : String) :
    (findFault matchFn s keyClass keyValue).2.nextPromise = s.nextPromise := by
  unfold findFault
  cases findClass s.faults keyClass <;> simp

/-- C4: `checkAsyncImpl` maps the matched behavior to its observable
effect — a `NoOp` match (and likewise the no-entry case) yields an
immediately completed success and leaves the blocked registry untouched;
an `Error{cause}` match yields an immediately failed result carrying
exactly the registered cause; a `Block` match appends a
`{value, promise}` entry to the class's blocked vector and returns a
result that is not yet resolved. -/
theorem c4_dispatch_effects (matchFn : String → String → Bool) (inj : FaultInjector)
    (keyClass keyValue : String) :
    ((findFault matchFn inj.state keyClass keyValue).1 = .unit →
      checkAsyncImpl matchFn inj keyClass keyValue
          = (.completed, { inj with state := (findFault matchFn inj.state keyClass keyValue).2 })
      ∧ (checkAsyncImpl matchFn inj keyClass keyValue).1.isImmediatelyResolved = true
      ∧ (checkAsyncImpl matchFn inj keyClass keyValue).2.state.blockedChecks
          = inj.state.blockedChecks)
    ∧ (findClass inj.state.faults keyClass = none →
        (checkAsyncImpl matchFn inj keyClass keyValue).1 = .completed)
    ∧ (∀ e, (findFault matchFn inj.state keyClass keyValue).1 = .error e →
        (checkAsyncImpl matchFn inj keyClass keyValue).1 = .failed e
        ∧ (checkAsyncImpl matchFn inj keyClass keyValue).2.state.blockedChecks
            = inj.state.blockedChecks)
    ∧ ((findFault matchFn inj.state keyClass keyValue).1 = .block →
        (checkAsyncImpl matchFn inj keyClass keyValue).1 = .blocked inj.state.nextPromise
        ∧ (checkAsyncImpl matchFn inj keyClass keyValue).1.isImmediatelyResolved = false
        ∧ findClass (checkAsyncImpl matchFn inj keyClass keyValue).2.state.blockedChecks keyClass
            = some ((findClass inj.state.blockedChecks keyClass).getD []
                ++ [⟨keyValue, inj.state.nextPromise⟩])) := by
  rcases hp : findFault matchFn inj.state keyClass keyValue with ⟨bh, st⟩
  have hbl : st.blockedChecks = inj.state.blockedChecks := by
    have h2 : (findFault matchFn inj.state keyClass keyValue).2 = st := by rw [hp]
    rw [← h2]
    exact findFault_preserves_blocked matchFn inj.state keyClass keyValue
  have hnp : st.nextPromise = inj.state.nextPromise := by
    have h2 : (findFault matchFn inj.state keyClass keyValue).2 = st := by rw [hp]
    rw [← h2]
    exact findFault_preserves_nextPromise matchFn inj.state keyClass keyValue
  refine ⟨?_, ?_, ?_, ?_⟩
  · intro h1
    replace h1 : bh = .unit := h1
    subst h1
    refine ⟨by simp [checkAsyncImpl, hp], by simp [checkAsyncImpl, hp, CheckResult.isImmediatelyResolved], ?_⟩
    simp [checkAsyncImpl, hp, hbl]
  · intro hfc
    have h1 : ((bh, st) : FaultBehavior × State) = (.unit, inj.state) := by
      rw [← hp]
      simp [findFault, hfc]
    replace h1 : bh = .unit := congrArg Prod.fst h1
    subst h1
    simp [checkAsyncImpl, hp]
  · intro e h1
    replace h1 : bh = .error e := h1
    subst h1
    exact ⟨by simp [checkAsyncImpl, hp], by simp [checkAsyncImpl, hp, hbl]⟩
  · intro h1
    replace h1 : bh = .block := h1
    subst h1
    refine ⟨?_, ?_, ?_⟩
    · simp [checkAsyncImpl, hp, addBlockedFault, hnp]
    · simp [checkAsyncImpl, hp, addBlockedFault, CheckResult.isImmediatelyResolved]
    · simp only [checkAsyncImpl, hp, addBlockedFault]
      rw [findClass_setClass_self]
      rw [hbl, hnp]

/-- Witness for C4 at concrete injectors: an empty rule store completes
immediately, an `Error` rule fails with its cause, and a `Block` rule
suspends on the fresh promise and records `{value, promise}` in the
class's blocked vector. -/
theorem c4_dispatch_effects_witness :
    (checkAsyncImpl regexStub ⟨true, ⟨[], [], 0⟩⟩ "open" "/foo").1 = .completed
    ∧ (checkAsyncImpl regexStub
        ⟨true, ⟨[("open", [⟨".*", 0, .error (.injected "e")⟩])], [], 0⟩⟩ "open" "/foo").1
        = .failed (.injected "e")
    ∧ (checkAsyncImpl regexStub
        ⟨true, ⟨[("read", [⟨".*", 0, .block⟩])], [], 7⟩⟩ "read" "f1").1 = .blocked 7
    ∧ findClass (checkAsyncImpl regexStub
        ⟨true, ⟨[("read", [⟨".*", 0, .block⟩])], [], 7⟩⟩ "read" "f1").2.state.blockedChecks "read"
        = some [⟨"f1", 7⟩] := by
  refine ⟨?_, ?_, ?_, ?_⟩
  · exact (c4_dispatch_effects regexStub ⟨true, ⟨[], [], 0⟩⟩ "open" "/foo").2.1 (by decide)
  · exact ((c4_dispatch_effects regexStub
      ⟨true, ⟨[("open", [⟨".*", 0, .error (.injected "e")⟩])], [], 0⟩⟩ "open" "/foo").2.2.1
      (.injected "e") (by decide)).1
  · exact ((c4_dispatch_effects regexStub
      ⟨true, ⟨[("read", [⟨".*", 0, .block⟩])], [], 7⟩⟩ "read" "f1").2.2.2 (by decide)).1
  · have h := ((c4_dispatch_effects regexStub
      ⟨true, ⟨[("read", [⟨".*", 0, .block⟩])], [], 7⟩⟩ "read" "f1").2.2.2 (by decide)).2.2
    simpa using h

/-- C5: `unblock`/`unblockWithError` extract exactly the blocked entries
of the class whose stored value fully matches the pattern, in order
(`filter` of the vector), keep the non-matching entries pending in order,
prune the class entry exactly when the extraction emptied it, leave the
other classes untouched, resolve each extracted handle (success for
`unblock`, the given cause for `unblockWithError`), and return the number
extracted. -/
theorem c5_unblock_partition (matchFn : String → String → Bool)
    (inj : FaultInjector) (keyClass pat : String) (e : Err)
    (hu : keysUnique inj.state.blockedChecks) :
    (extractBlockedChecks matchFn inj keyClass pat).1
        = ((findClass inj.state.blockedChecks keyClass).getD []).filter
            (fun c => matchFn pat c.keyValue)
    ∧ findClass (extractBlockedChecks matchFn inj keyClass pat).2.state.blockedChecks keyClass
        = (if (((findClass inj.state.blockedChecks keyClass).getD []).filter
                (fun c => !(matchFn pat c.keyValue))).isEmpty = true
           then none
           else some (((findClass inj.state.blockedChecks keyClass).getD []).filter
                (fun c => !(matchFn pat c.keyValue))))
    ∧ (∀ c', c' ≠ keyClass →
        findClass (extractBlockedChecks matchFn inj keyClass pat).2.state.blockedChecks c'
          = findClass inj.state.blockedChecks c')
    ∧ unblock matchFn inj keyClass pat
        = ((extractBlockedChecks matchFn inj keyClass pat).1.length,
           (extractBlockedChecks matchFn inj keyClass pat).1.map
             (fun m => (m.promise, Resolution.success)),
           (extractBlockedChecks matchFn inj keyClass pat).2)
    ∧ unblockWithError matchFn inj keyClass pat e
        = ((extractBlockedChecks matchFn inj keyClass pat).1.length,
           (extractBlockedChecks matchFn inj keyClass pat).1.map
             (fun m => (m.promise, Resolution.failure e)),
           (extractBlockedChecks matchFn inj keyClass pat).2) := by
  have hcomp : (not ∘ fun c : BlockedCheck => matchFn pat c.keyValue)
      = fun c : BlockedCheck => !(matchFn pat c.keyValue) := rfl
  cases hfc : findClass inj.state.blockedChecks keyClass with
  | none =>
    refine ⟨by simp [extractBlockedChecks, hfc], ?_, ?_, rfl, rfl⟩
    · simp [extractBlockedChecks, hfc, List.isEmpty_iff]
    · intro c' hc'
      simp [extractBlockedChecks, hfc]
  | some vec =>
    by_cases hk : (vec.filter fun c => !(matchFn pat c.keyValue)).isEmpty = true
    · have hext : extractBlockedChecks matchFn inj keyClass pat
          = (vec.filter fun c => matchFn pat c.keyValue,
             { inj with state := { inj.state with
                 blockedChecks := eraseClass inj.state.blockedChecks keyClass } }) := by
        simp [extractBlockedChecks, hfc, hcomp, hk]
      refine ⟨by rw [hext]; simp [hfc], ?_, ?_, rfl, rfl⟩
      · rw [hext]
        simp only [hfc, Option.getD_some, hk, if_true]
        exact findClass_eraseClass_self inj.state.blockedChecks keyClass hu
      · intro c' hc'
        rw [hext]
        exact findClass_eraseClass_other inj.state.blockedChecks keyClass c' hc'
    · have hext : extractBlockedChecks matchFn inj keyClass pat
          = (vec.filter fun c => matchFn pat c.keyValue,
             { inj with state := { inj.state with
                 blockedChecks := setClass inj.state.blockedChecks keyClass
                   (vec.filter fun c => !(matchFn pat c.keyValue)) } }) := by
        simp [extractBlockedChecks, hfc, hcomp, hk]
      refine ⟨by rw [hext]; simp [hfc], ?_, ?_, rfl, rfl⟩
      · rw [hext]
        simp only [hfc, Option.getD_some, hk, if_false]
        exact findClass_setClass_self inj.state.blockedChecks keyClass _
      · intro c' hc'
        rw [hext]
        exact findClass_setClass_other inj.state.blockedChecks keyClass c' _ hc'

/-- Witness for C5: of three blocked `"read"` calls `f1, g, f1`,
`unblock("read","f1")` extracts the two `f1` entries in order, resolves
their promises with success, returns `2`, and keeps `g` pending. -/
theorem c5_unblock_partition_witness :
    (extractBlockedChecks regexStub
        ⟨true, ⟨[], [("read", [⟨"f1", 0⟩, ⟨"g", 1⟩, ⟨"f1", 2⟩])], 3⟩⟩ "read" "f1").1
      = [⟨"f1", 0⟩, ⟨"f1", 2⟩]
    ∧ findClass ((extractBlockedChecks regexStub
        ⟨true, ⟨[], [("read", [⟨"f1", 0⟩, ⟨"g", 1⟩, ⟨"f1", 2⟩])], 3⟩⟩ "read" "f1").2.state.blockedChecks)
        "read" = some [⟨"g", 1⟩]
    ∧ unblock regexStub
        ⟨true, ⟨[], [("read", [⟨"f1", 0⟩, ⟨"g", 1⟩, ⟨"f1", 2⟩])], 3⟩⟩ "read" "f1"
      = (2, [(0, .success), (2, .success)],
         (extractBlockedChecks regexStub
           ⟨true, ⟨[], [("read", [⟨"f1", 0⟩, ⟨"g", 1⟩, ⟨"f1", 2⟩])], 3⟩⟩ "read" "f1").2) := by
  have h := c5_unblock_partition regexStub
    ⟨true, ⟨[], [("read", [⟨"f1", 0⟩, ⟨"g", 1⟩, ⟨"f1", 2⟩])], 3⟩⟩ "read" "f1"
    (.injected "x") (by unfold keysUnique; decide)
  refine ⟨?_, ?_, ?_⟩
  · rw [h.1]
    decide
  · rw [h.2.1]
    decide
  · rw [h.2.2.2.1]
    refine Prod.ext ?_ (Prod.ext ?_ rfl)
    · rw [h.1]
      decide
    · rw [h.1]
      decide

/-! ### `unblockAllImpl` -/

/-- Total number of blocked checks across all classes of the mapping. -/
def totalBlocked : List (String × List BlockedCheck) → Nat
  | [] => 0
  | (_, checks) :: rest => checks.length + totalBlocked rest

/-- All blocked promises across all classes of the mapping, in order. -/
def allBlockedPromises : List (String × List BlockedCheck) → List Nat
  | [] => []
  | (_, checks) :: rest => checks.map (·.promise) ++ allBlockedPromises rest

theorem resolveAll_count (e : Option Err) :
    ∀ l, (resolveAll e l).1 = totalBlocked l
  | [] => rfl
  | (c, checks) :: rest => by
    simp [resolveAll, totalBlocked, resolveAll_count e rest]

theorem resolveAll_promises (e : Option Err) :
    ∀ l, (resolveAll e l).2.map Prod.fst = allBlockedPromises l
  | [] => rfl
  | (c, checks) :: rest => by
    simp [resolveAll, allBlockedPromises, resolveAll_promises e rest]

theorem resolveAll_length (e : Option Err) :
    ∀ l, (resolveAll e l).2.length = (resolveAll e l).1
  | [] => rfl
  | (c, checks) :: rest => by
    simp [resolveAll, resolveAll_length e rest]

theorem resolveAll_resolution (e : Option Err) :
    ∀ l, ∀ r ∈ (resolveAll e l).2,
      r.2 = (match e with | some err => Resolution.failure err | none => Resolution.success)
  | [] => by intro r hr; simp [resolveAll] at hr
  | (c, checks) :: rest => by
    intro r hr
    simp only [resolveAll, List.mem_append] at hr
    rcases hr with hr | hr
    · rcases List.mem_map.mp hr with ⟨ch, _, hch⟩
      rw [← hch]
    · exact resolveAll_resolution e rest r hr

/-- C6: `unblockAll` and `unblockAllWithError` swap the whole blocked
mapping for an empty one, resolve every previously blocked promise across
all classes (success, resp. the given cause), and return the total number
resolved; the rule store and the enabled flag are untouched. -/
theorem c6_unblock_all (inj : FaultInjector) (e : Err) (eOpt : Option Err) :
    (unblockAllImpl inj eOpt).2.2.state.blockedChecks = []
    ∧ (unblockAllImpl inj eOpt).1 = totalBlocked inj.state.blockedChecks
    ∧ (unblockAllImpl inj eOpt).2.1.map Prod.fst = allBlockedPromises inj.state.blockedChecks
    ∧ (unblockAllImpl inj eOpt).2.1.length = (unblockAllImpl inj eOpt).1
    ∧ (∀ r ∈ (unblockAll inj).2.1, r.2 = Resolution.success)
    ∧ (∀ r ∈ (unblockAllWithError inj e).2.1, r.2 = Resolution.failure e)
    ∧ unblockAll inj = unblockAllImpl inj none
    ∧ unblockAllWithError inj e = unblockAllImpl inj (some e)
    ∧ (unblockAllImpl inj eOpt).2.2.enabled = inj.enabled
    ∧ (unblockAllImpl inj eOpt).2.2.state.faults = inj.state.faults := by
  refine ⟨rfl, resolveAll_count eOpt inj.state.blockedChecks,
    resolveAll_promises eOpt inj.state.blockedChecks,
    resolveAll_length eOpt inj.state.blockedChecks, ?_, ?_, rfl, rfl, rfl, rfl⟩
  · intro r hr
    exact resolveAll_resolution none inj.state.blockedChecks r hr
  · intro r hr
    exact resolveAll_resolution (some e) inj.state.blockedChecks r hr

theorem removeFromVector_eq_none (t : String) (vec : List Fault)
    (h : ∀ g ∈ vec, g.keyValueRegex ≠ t) : removeFromVector t vec = none := by
  induction vec with
  | nil => rfl
  | cons f rest ih =>
    have hf := h f (List.mem_cons_self _ _)
    simp only [removeFromVector, if_neg hf]
    rw [ih fun g hg => h g (List.mem_cons_of_mem _ hg)]
    rfl

theorem removeFromVector_first (t : String) (a b : List Fault) (f : Fault)
    (ha : ∀ g ∈ a, g.keyValueRegex ≠ t) (hf : f.keyValueRegex = t) :
    removeFromVector t (a ++ f :: b) = some (a ++ b) := by
  induction a with
  | nil => simp [removeFromVector, hf]
  | cons g a' ih =>
    have hg := ha g (List.mem_cons_self _ _)
    simp only [List.cons_append, removeFromVector, if_neg hg, List.append_eq]
    rw [ih fun x hx => ha x (List.mem_cons_of_mem _ hx)]
    rfl

/-- C7: `removeFault(class, text)` removes the first registered fault of
the class whose original pattern text is string-equal to `text` and
returns `true`, pruning the class entry when the vector became empty and
leaving all other classes and the blocked registry untouched; when the
class has no entry or no fault's pattern text equals `text`, it returns
`false` and leaves the whole injector unchanged. -/
theorem c7_remove_fault (inj : FaultInjector) (keyClass t : String)
    (hu : keysUnique inj.state.faults) :
    (findClass inj.state.faults keyClass = none → removeFault inj keyClass t = (false, inj))
    ∧ (∀ vec, findClass inj.state.faults keyClass = some vec →
        (∀ g ∈ vec, g.keyValueRegex ≠ t) → removeFault inj keyClass t = (false, inj))
    ∧ (∀ a f b, findClass inj.state.faults keyClass = some (a ++ f :: b) →
        (∀ g ∈ a, g.keyValueRegex ≠ t) → f.keyValueRegex = t →
        (removeFault inj keyClass t).1 = true
        ∧ findClass (removeFault inj keyClass t).2.state.faults keyClass
            = (if (a ++ b).isEmpty = true then none else some (a ++ b))
        ∧ (∀ c', c' ≠ keyClass →
            findClass (removeFault inj keyClass t).2.state.faults c'
              = findClass inj.state.faults c')
        ∧ (removeFault inj keyClass t).2.state.blockedChecks = inj.state.blockedChecks
        ∧ (removeFault inj keyClass t).2.enabled = inj.enabled) := by
  refine ⟨?_, ?_, ?_⟩
  · intro hfc
    simp [removeFault, hfc]
  · intro vec hfc hnone
    simp [removeFault, hfc, removeFromVector_eq_none t vec hnone]
  · intro a f b hfc ha hf
    have hrv := removeFromVector_first t a b f ha hf
    by_cases he : (a ++ b).isEmpty = true
    · have hrw : removeFault inj keyClass t
          = (true, { inj with state := { inj.state with
              faults := eraseClass inj.state.faults keyClass } }) := by
        simp [removeFault, hfc, hrv, he]
      rw [hrw]
      refine ⟨rfl, ?_, ?_, rfl, rfl⟩
      · rw [if_pos he]
        exact findClass_eraseClass_self inj.state.faults keyClass hu
      · intro c' hc'
        exact findClass_eraseClass_other inj.state.faults keyClass c' hc'
    · have hrw : removeFault inj keyClass t
          = (true, { inj with state := { inj.state with
              faults := setClass inj.state.faults keyClass (a ++ b) } }) := by
        simp [removeFault, hfc, hrv, he]
      rw [hrw]
      refine ⟨rfl, ?_, ?_, rfl, rfl⟩
      · rw [if_neg he]
        exact findClass_setClass_self inj.state.faults keyClass (a ++ b)
      · intro c' hc'
        exact findClass_setClass_other inj.state.faults keyClass c' (a ++ b) hc'

/-- Witness for C7: removing a registered pattern text succeeds and keeps
the other fault; removing an unknown text is a no-op returning `false`;
removing the last fault prunes the class entry. -/
theorem c7_remove_fault_witness :
    removeFault ⟨true, ⟨[("c", [⟨"p", 2, .block⟩, ⟨"q", 1, .unit⟩])], [], 0⟩⟩ "c" "zz"
      = (false, ⟨true, ⟨[("c", [⟨"p", 2, .block⟩, ⟨"q", 1, .unit⟩])], [], 0⟩⟩)
    ∧ (removeFault ⟨true, ⟨[("c", [⟨"p", 2, .block⟩, ⟨"q", 1, .unit⟩])], [], 0⟩⟩ "c" "q").1 = true
    ∧ findClass ((removeFault ⟨true, ⟨[("c", [⟨"p", 2, .block⟩, ⟨"q", 1, .unit⟩])], [], 0⟩⟩
        "c" "q").2.state.faults) "c" = some [⟨"p", 2, .block⟩]
    ∧ findClass ((removeFault ⟨true, ⟨[("c", [⟨"p", 1, .kill⟩])], [], 0⟩⟩
        "c" "p").2.state.faults) "c" = none := by
  have h1 := c7_remove_fault ⟨true, ⟨[("c", [⟨"p", 2, .block⟩, ⟨"q", 1, .unit⟩])], [], 0⟩⟩ "c" "zz"
    (by unfold keysUnique; decide)
  have h2 := c7_remove_fault ⟨true, ⟨[("c", [⟨"p", 2, .block⟩, ⟨"q", 1, .unit⟩])], [], 0⟩⟩ "c" "q"
    (by unfold keysUnique; decide)
  have h3 := c7_remove_fault ⟨true, ⟨[("c", [⟨"p", 1, .kill⟩])], [], 0⟩⟩ "c" "p"
    (by unfold keysUnique; decide)
  have h2' := h2.2.2 [⟨"p", 2, .block⟩] ⟨"q", 1, .unit⟩ [] (by decide) (by decide) (by decide)
  have h3' := h3.2.2 [] ⟨"p", 1, .kill⟩ [] (by decide) (by decide) (by decide)
  refine ⟨?_, h2'.1, ?_, ?_⟩
  · exact h1.2.1 [⟨"p", 2, .block⟩, ⟨"q", 1, .unit⟩] (by decide) (by decide)
  · rw [h2'.2.1]
    decide
  · rw [h3'.2.1]
    decide

theorem injectFault_disabled_iff (inj : FaultInjector) (keyClass pat : String)
    (b : FaultBehavior) (count : Nat) :
    (injectFault inj keyClass pat b count = .error "fault injection is disabled")
      ↔ inj.enabled = false := by
  cases he : inj.enabled <;> simp [injectFault, he]

/-- C8: each registration operation fails with the "disabled" error
exactly when the injector was constructed disabled (the `Except.error`
result means the exception propagates before any mutation, so the rule
store is untouched), and succeeds exactly when it is enabled; the check
operations ignore the flag entirely — their result and the state they
leave behind are the same for both values of the flag over any state. -/
theorem c8_enabled_gates_registration_only (inj : FaultInjector)
    (keyClass pat keyValue : String) (e : Err) (d count : Nat)
    (matchFn : String → String → Bool) (e1 e2 : Bool) (s : State) :
    ((injectError inj keyClass pat e count = .error "fault injection is disabled")
        ↔ inj.enabled = false)
    ∧ ((injectBlock inj keyClass pat count = .error "fault injection is disabled")
        ↔ inj.enabled = false)
    ∧ ((injectDelay inj keyClass pat d count = .error "fault injection is disabled")
        ↔ inj.enabled = false)
    ∧ ((injectDelayedError inj keyClass pat d e count = .error "fault injection is disabled")
        ↔ inj.enabled = false)
    ∧ ((injectKill inj keyClass pat count = .error "fault injection is disabled")
        ↔ inj.enabled = false)
    ∧ ((injectNoop inj keyClass pat count = .error "fault injection is disabled")
        ↔ inj.enabled = false)
    ∧ (∀ b, (∃ inj', injectFault inj keyClass pat b count = .ok inj') ↔ inj.enabled = true)
    ∧ (checkAsyncImpl matchFn ⟨e1, s⟩ keyClass keyValue).1
        = (checkAsyncImpl matchFn ⟨e2, s⟩ keyClass keyValue).1
    ∧ (checkAsyncImpl matchFn ⟨e1, s⟩ keyClass keyValue).2.state
        = (checkAsyncImpl matchFn ⟨e2, s⟩ keyClass keyValue).2.state
    ∧ (checkTryImpl matchFn ⟨e1, s⟩ keyClass keyValue).1
        = (checkTryImpl matchFn ⟨e2, s⟩ keyClass keyValue).1
    ∧ (checkImpl matchFn ⟨e1, s⟩ keyClass keyValue).1
        = (checkImpl matchFn ⟨e2, s⟩ keyClass keyValue).1 := by
  have hasync : (checkAsyncImpl matchFn ⟨e1, s⟩ keyClass keyValue).1
        = (checkAsyncImpl matchFn ⟨e2, s⟩ keyClass keyValue).1
      ∧ (checkAsyncImpl matchFn ⟨e1, s⟩ keyClass keyValue).2.state
        = (checkAsyncImpl matchFn ⟨e2, s⟩ keyClass keyValue).2.state := by
    rcases hp : findFault matchFn s keyClass keyValue with ⟨bh, st⟩
    cases bh <;> simp [checkAsyncImpl, hp]
  refine ⟨injectFault_disabled_iff inj keyClass pat _ count,
    injectFault_disabled_iff inj keyClass pat _ count,
    injectFault_disabled_iff inj keyClass pat _ count,
    injectFault_disabled_iff inj keyClass pat _ count,
    injectFault_disabled_iff inj keyClass pat _ count,
    injectFault_disabled_iff inj keyClass pat _ count,
    ?_, hasync.1, hasync.2, ?_, ?_⟩
  · intro b
    cases he : inj.enabled <;> simp [injectFault, he]
  · simp only [checkTryImpl]
    rw [hasync.1]
  · simp only [checkImpl, checkTryImpl]
    rw [hasync.1]

/-- C9: destroying the injector forcibly fails every still-pending
blocked call across all classes with the synthetic destruction error
(which, as a distinct constructor of `Err`, differs from every
host-injected payload), returns the number of forced releases, and logs
the warning exactly when that number is positive; with exactly one
blocked call pending the destructor resolves it with the destruction
error and reports exactly one forced release. -/
theorem c9_destruction_fails_blocked (inj : FaultInjector) :
    (destructor inj).1 = totalBlocked inj.state.blockedChecks
    ∧ (destructor inj).2.1.map Prod.fst = allBlockedPromises inj.state.blockedChecks
    ∧ (∀ r ∈ (destructor inj).2.1, r.2 = Resolution.failure .faultInjectorDestroyed)
    ∧ ((destructor inj).2.2 = true ↔ 0 < (destructor inj).1)
    ∧ (∀ s, Err.faultInjectorDestroyed ≠ Err.injected s)
    ∧ (∀ c v p, inj.state.blockedChecks = [(c, [⟨v, p⟩])] →
        destructor inj = (1, [(p, Resolution.failure .faultInjectorDestroyed)], true)) := by
  refine ⟨resolveAll_count _ _, resolveAll_promises _ _, ?_, ?_, ?_, ?_⟩
  · intro r hr
    exact resolveAll_resolution (some .faultInjectorDestroyed) inj.state.blockedChecks r hr
  · simp [destructor]
  · intro s hs
    exact Err.noConfusion hs
  · intro c v p hbl
    simp [destructor, unblockAllImpl, resolveAll, hbl]

/-- Witness for C9: destroying an injector with one pending blocked call
fails that promise with the destruction error, returns `1`, and logs. -/
theorem c9_destruction_fails_blocked_witness :
    destructor ⟨true, ⟨[], [("read", [⟨"f1", 4⟩])], 5⟩⟩
      = (1, [(4, Resolution.failure .faultInjectorDestroyed)], true) := by
  exact (c9_destruction_fails_blocked ⟨true, ⟨[], [("read", [⟨"f1", 4⟩])], 5⟩⟩).2.2.2.2.2
    "read" "f1" 4 rfl

theorem findFault_cons_matched_head (matchFn : String → String → Bool)
    (keyClass pat keyValue : String) (b : FaultBehavior) (N : Nat) (rest : List Fault)
    (hm : matchFn pat keyValue = true) :
    findFault matchFn ⟨[(keyClass, ⟨pat, N, b⟩ :: rest)], [], 0⟩ keyClass keyValue
      = (b, ⟨[(keyClass,
            if N = 0 then ⟨pat, N, b⟩ :: rest
            else if N = 1 then rest
            else ⟨pat, N - 1, b⟩ :: rest)], [], 0⟩) := by
  rcases N with _ | n
  · simp [findFault, findClass, findFaultInList, setClass, hm]
  · rcases n with _ | m
    · simp [findFault, findClass, findFaultInList, setClass, hm]
    · simp [findFault, findClass, findFaultInList, setClass, hm]

/-- C10: a fault registered by `injectNoop` carries the `unit` behavior
and participates in matching like any other fault — when it is the first
match, `checkAsyncImpl` returns an immediately completed success exactly
as in the no-fault case, yet its bounded counter is decremented (the
fault erased when the counter reaches zero, kept unchanged when
unlimited) and the later-registered faults of the class, whatever they
are, are not consulted and stay untouched. -/
theorem c10_noop_shadowing (matchFn : String → String → Bool)
    (keyClass pat keyValue : String) (N : Nat) (rest : List Fault)
    (hm : matchFn pat keyValue = true) :
    (∀ (inj : FaultInjector) (c p : String) (n : Nat),
        injectNoop inj c p n = injectFault inj c p .unit n)
    ∧ (checkAsyncImpl matchFn ⟨true, ⟨[(keyClass, ⟨pat, N, .unit⟩ :: rest)], [], 0⟩⟩
        keyClass keyValue).1 = .completed
    ∧ (checkAsyncImpl matchFn ⟨true, ⟨[], [], 0⟩⟩ keyClass keyValue).1 = .completed
    ∧ (2 ≤ N →
        (checkAsyncImpl matchFn ⟨true, ⟨[(keyClass, ⟨pat, N, .unit⟩ :: rest)], [], 0⟩⟩
          keyClass keyValue).2.state.faults = [(keyClass, ⟨pat, N - 1, .unit⟩ :: rest)])
    ∧ (N = 1 →
        (checkAsyncImpl matchFn ⟨true, ⟨[(keyClass, ⟨pat, N, .unit⟩ :: rest)], [], 0⟩⟩
          keyClass keyValue).2.state.faults = [(keyClass, rest)])
    ∧ (N = 0 →
        (checkAsyncImpl matchFn ⟨true, ⟨[(keyClass, ⟨pat, N, .unit⟩ :: rest)], [], 0⟩⟩
          keyClass keyValue).2.state.faults = [(keyClass, ⟨pat, 0, .unit⟩ :: rest)]) := by
  have hstep := findFault_cons_matched_head matchFn keyClass pat keyValue .unit N rest hm
  refine ⟨fun inj c p n => rfl, ?_, ?_, ?_, ?_, ?_⟩
  · simp [checkAsyncImpl, hstep]
  · simp [checkAsyncImpl, findFault, findClass]
  · intro h2
    have h0 : ¬(N = 0) := by omega
    have h1 : ¬(N = 1) := by omega
    simp [checkAsyncImpl, hstep, h0, h1]
  · intro h1
    subst h1
    simp [checkAsyncImpl, hstep]
  · intro h0
    subst h0
    simp [checkAsyncImpl, hstep]

/-- Witness for C10: a `NoOp` fault with count `2` for pattern `".*"`
shadows a later `Error` fault — the check completes successfully, the
`NoOp` counter drops to `1`, and the `Error` fault is untouched. -/
theorem c10_noop_shadowing_witness :
    (checkAsyncImpl regexStub
        ⟨true, ⟨[("open", [⟨".*", 2, .unit⟩, ⟨".*", 0, .error (.injected "boom")⟩])], [], 0⟩⟩
        "open" "/foo").1 = .completed
    ∧ (checkAsyncImpl regexStub
        ⟨true, ⟨[("open", [⟨".*", 2, .unit⟩, ⟨".*", 0, .error (.injected "boom")⟩])], [], 0⟩⟩
        "open" "/foo").2.state.faults
      = [("open", [⟨".*", 1, .unit⟩, ⟨".*", 0, .error (.injected "boom")⟩])] := by
  have h := c10_noop_shadowing regexStub "open" ".*" "/foo" 2
    [⟨".*", 0, .error (.injected "boom")⟩] (by decide)
  exact ⟨h.2.1, h.2.2.2.1 (by decide)⟩
